import Mathlib

/-!
# hist0: changelog fragment parsing and section merge

A shallow embedding of the text-processing functions of `src/index.js`
(`extractMetaData`, `extractChangeLog`, `convertToObject`, `getChangeLog` and the
merge step of `main`) and of the fragment template of `src/change.js`.

A JavaScript string is modelled as a list of characters, one character per code
unit: the model is that of the program on texts whose characters all lie in the Basic
Multilingual Plane, where a character is one code unit.  A `TypeError` thrown by the program (reading a property of `null` or
`undefined`) is modelled by `none`.  Logging and file-system access are left out:
the functions take the file contents as arguments.
-/

set_option maxRecDepth 100000

namespace Hist0

/-- Text: a JavaScript string as the list of its code units. -/
abbrev Str := List Char

/-! ## Character classes of the regular expressions -/

/-- The class `\w` (no `i`, no `u` flag): `[A-Za-z0-9_]`. -/
def isWordChar (c : Char) : Bool :=
  c.isAlphanum || c == '_'

/-- The class `\d`: `[0-9]`. -/
def isDigitChar (c : Char) : Bool :=
  c.isDigit

/-- Line terminators: LF, CR, U+2028, U+2029.  The atom `.` matches every other
code unit. -/
def isLineTerminator (c : Char) : Bool :=
  c.toNat == 10 || c.toNat == 13 || c.toNat == 8232 || c.toNat == 8233

/-- The class `\s`: white space and line terminators. -/
def isSpaceChar (c : Char) : Bool :=
  let n := c.toNat
  n == 9 || n == 11 || n == 12 || n == 32 || n == 160 || n == 5760
    || (8192 ≤ n && n ≤ 8202) || n == 8239 || n == 8287 || n == 12288 || n == 65279
    || isLineTerminator c

/-! ## String primitives -/

/-- The first occurrence of `pat` in the text: the text before it and the text
after it (`indexOf` followed by the two `substring`s). -/
def breakOn (pat : Str) : Str → Option (Str × Str)
  | [] => if pat.isEmpty then some ([], []) else none
  | c :: s =>
    if pat.isPrefixOf (c :: s) then some ([], (c :: s).drop pat.length)
    else (breakOn pat s).map (fun p => (c :: p.1, p.2))

/-- The loop of `String.prototype.split` for a non-empty separator; the first
argument bounds the number of separators still to be found. -/
def splitFuel (sep : Str) : Nat → Str → List Str
  | 0, s => [s]
  | n + 1, s =>
    match breakOn sep s with
    | none => [s]
    | some (b, a) => b :: splitFuel sep n a

/-- The call `s.split(sep)` for a string separator: an empty separator splits the text
into its code units. -/
def split (s sep : Str) : List Str :=
  if sep.isEmpty then s.map (fun c => [c]) else splitFuel sep s.length s

/-- The rest of the text after the first of the literal alternatives that matches at
the head of the text: an alternation of literals tried at one position. -/
def matchAlt (alts : List Str) (s : Str) : Option Str :=
  (alts.find? (fun a => a.isPrefixOf s)).map (fun a => s.drop a.length)

/-- The call `s.replace(/a1|a2|.../, rep)` for a regular expression without the `g` flag that
is an alternation of non-empty literals, and a replacement text without `$`: the
leftmost match is replaced. -/
def replaceFirstAlt (alts : List Str) (rep : Str) : Str → Str
  | [] => []
  | c :: s =>
    match matchAlt alts (c :: s) with
    | some r => rep ++ r
    | none => c :: replaceFirstAlt alts rep s

/-- The loop of `s.replace(/lit/g, '')` for a non-empty literal. -/
def removeAllFuel (pat : Str) : Nat → Str → Str
  | 0, s => s
  | n + 1, s =>
    match breakOn pat s with
    | none => s
    | some (b, a) => b ++ removeAllFuel pat n a

/-- The call `s.replace(/lit/g, '')` for a non-empty literal. -/
def removeAll (pat s : Str) : Str :=
  removeAllFuel pat s.length s

/-- The abstract operation GetSubstitution for a string pattern (no captures):
in the replacement text `$$` stands for `$`, `$&` for the matched text, `$` followed
by a backtick for the text before the match, `$` followed by an apostrophe for the
text after it; every other character stands for itself. -/
def getSubstitution (matched before after : Str) : Str → Str
  | [] => []
  | [c] => [c]
  | c :: d :: r =>
    if c = '$' then
      if d = '$' then '$' :: getSubstitution matched before after r
      else if d = '&' then matched ++ getSubstitution matched before after r
      else if d = Char.ofNat 96 then before ++ getSubstitution matched before after r
      else if d = Char.ofNat 39 then after ++ getSubstitution matched before after r
      else c :: getSubstitution matched before after (d :: r)
    else c :: getSubstitution matched before after (d :: r)

/-- The call `s.replace(pat, rep)` for a string pattern: the first occurrence of `pat` is
replaced by the expansion of `rep`. -/
def replaceStr (s pat rep : Str) : Str :=
  match breakOn pat s with
  | none => s
  | some (b, a) => b ++ getSubstitution pat b a rep ++ a

/-- The text a template literal or `ToString` gives for a value that may be
`undefined`. -/
def toStr : Option Str → Str
  | some s => s
  | none => "undefined".toList

/-! ## extractMetaData -/

/-- The header marker `---`. -/
def marker : Str := "---".toList

/-- The regular expression with source `---([\s\S]*?)---` tried at the head of the
text: the captured text (the shortest that is followed by a marker) and the rest
after the match. -/
def matchHeaderAt (s : Str) : Option (Str × Str) :=
  if marker.isPrefixOf s then breakOn marker (s.drop marker.length) else none

/-- The leftmost match of the regular expression with source `---([\s\S]*?)---`:
the text before the match, the captured text and the text after the match. -/
def execHeader : Str → Option (Str × Str × Str)
  | [] => none
  | c :: s =>
    match matchHeaderAt (c :: s) with
    | some (m, r) => some ([], m, r)
    | none => (execHeader s).map (fun p => (c :: p.1, p.2))

/-- The loop of `content.replace(regex, '')` for the regular expression with source
`---([\s\S]*?)---` and flags `gm`: every match, found left to right from the end
of the previous one, is removed. -/
def removeHeadersFuel : Nat → Str → Str
  | 0, s => s
  | n + 1, s =>
    match execHeader s with
    | none => s
    | some (b, _, r) => b ++ removeHeadersFuel n r

/-- The call `content.replace(regex, '')` of line 123. -/
def removeHeaders (s : Str) : Str :=
  removeHeadersFuel s.length s

/-- The function `extractMetaData(content)`, lines 119-125: `none` when `content.match(regex)`
is `null`, so that `found[0]` throws. -/
def extractMetaData (content : Str) : Option (Str × Str) :=
  match execHeader content with
  | none => none
  | some (_, m, _) =>
    let found0 := marker ++ m ++ marker
    let metaData := removeAll marker found0
    let result := removeHeaders content
    some (metaData, result)

/-! ## extractChangeLog -/

/-- The call `s.replace(/Added|Changed|Fixed\n/, '')` of line 134. -/
def stripLabel (s : Str) : Str :=
  replaceFirstAlt ["Added".toList, "Changed".toList, "Fixed\n".toList] [] s

/-- The call `s.replace(re, '-')` for the regular expression with source `(\n\n|\n)-`,
line 135. -/
def joinBullet (s : Str) : Str :=
  replaceFirstAlt ["\n\n-".toList, "\n-".toList] ['-'] s

/-- The call `s.replace(/^\W/, '')` of line 136: without the `m` flag `^` is the start of the text. -/
def stripLeadingNonWord : Str → Str
  | [] => []
  | c :: s => if isWordChar c then c :: s else s

/-- The text is one or more line feeds and nothing else: `/^\n+$/`. -/
def isNewlines (s : Str) : Bool :=
  !s.isEmpty && s.all (fun c => c == '\n')

/-- The call `s.replace(/\n+$/, '\n')` of line 137: without the `m` flag `$` is the end of the text, so
the match is the run of line feeds that ends the text. -/
def collapseTrailingNewlines : Str → Str
  | [] => []
  | c :: s => if isNewlines (c :: s) then ['\n'] else c :: collapseTrailingNewlines s

/-- The function `extractChangeLog(content, delimiter)`, lines 132-139; the
delimiter is `#` when the caller gives none. -/
def extractChangeLog (content : Str) (delimiter : Str := ['#']) : List Str :=
  (((((split content delimiter).map stripLabel).map joinBullet).map
    stripLeadingNonWord).map collapseTrailingNewlines).filter (fun line => !isNewlines line)

/-! ## convertToObject and getChangeLog -/

/-- The call `value.replace(/\W/, '')` of line 152: the first character that is not a word character
is removed. -/
def removeFirstNonWord : Str → Str
  | [] => []
  | c :: s => if isWordChar c then c :: removeFirstNonWord s else s

/-- The assignment `obj[key] = value` on an object held as a list of entries, in the
order of first assignment; the order in which a JavaScript object lists its keys and
the special key `__proto__` are not modelled, and nothing below reads the entries. -/
def setKey (key value : Str) : List (Str × Str) → List (Str × Str)
  | [] => [(key, value)]
  | (k, v) :: rest => if k = key then (k, value) :: rest else (k, v) :: setKey key value rest

/-- The body of the loop of `convertToObject`: `none` when the line has no `:`, so
that `value` is `undefined` and `value.replace` throws. -/
def convertLine (obj : List (Str × Str)) (s : Str) : Option (List (Str × Str)) :=
  match split s [':'] with
  | key :: value :: _ => some (setKey key (removeFirstNonWord value) obj)
  | _ => none

/-- The function `convertToObject(metaData)`, lines 146-156. -/
def convertToObject (metaData : Str) : Option (List (Str × Str)) :=
  ((split metaData ['\n']).filter (fun s => decide (s.length > 0))).foldlM convertLine []

/-- The statement `if (a && a.length) xs.push(a)`, lines 203-213. -/
def pushIf (xs : List Str) : Option Str → List Str
  | some a => if a.length ≠ 0 then xs ++ [a] else xs
  | none => xs

/-- The three sequences `added`, `changed`, `fixed` of `getChangeLog`. -/
abbrev Aggregated := List Str × List Str × List Str

/-- The callback of `toadd.forEach` in `getChangeLog`, lines 188-214, on the three
sequences built so far and the content of the next file. -/
def getChangeLogStep (acc : Aggregated) (fileContent : Str) : Option Aggregated :=
  match extractMetaData fileContent with
  | none => none
  | some (metaText, content) =>
    match convertToObject metaText with
    | none => none
    | some _ =>
      let r := extractChangeLog content
      some (pushIf acc.1 r[0]?, pushIf acc.2.1 r[1]?, pushIf acc.2.2 r[2]?)

/-- The function `getChangeLog()`, lines 176-217, on the contents of the fragment files in the
order of enumeration. -/
def getChangeLog (files : List Str) : Option Aggregated :=
  files.foldlM getChangeLogStep ([], [], [])

/-! ## The merge step of main -/

/-- The regular expression `/##\s\[\d.\d.\d\]/` tried at the head of the text: the
rest after the match. -/
def matchVersionAt : Str → Option Str
  | h1 :: h2 :: w :: b :: d1 :: x1 :: d2 :: x2 :: d3 :: e :: rest =>
    if h1 = '#' ∧ h2 = '#' ∧ isSpaceChar w ∧ b = '[' ∧ isDigitChar d1 ∧ !isLineTerminator x1
        ∧ isDigitChar d2 ∧ !isLineTerminator x2 ∧ isDigitChar d3 ∧ e = ']'
    then some rest else none
  | _ => none

/-- The leftmost match of the version heading: the text before it and the text
after it. -/
def breakVersion : Str → Option (Str × Str)
  | [] => none
  | c :: s =>
    match matchVersionAt (c :: s) with
    | some r => some ([], r)
    | none => (breakVersion s).map (fun p => (c :: p.1, p.2))

/-- The loop of `content.split(/##\s\[\d.\d.\d\]/)`. -/
def splitVersionFuel : Nat → Str → List Str
  | 0, s => [s]
  | n + 1, s =>
    match breakVersion s with
    | none => [s]
    | some (b, a) => b :: splitVersionFuel n a

/-- The call `content.split(/##\s\[\d.\d.\d\]/)` of line 264. -/
def splitVersion (s : Str) : List Str :=
  splitVersionFuel s.length s

/-- Line 264: the second element of the split at the version headings, with its
first `-` removed;
`none` when there is no version heading, so that `shift()` gives `undefined`. -/
def latestSection (content : Str) : Option Str :=
  ((splitVersion content)[1]?).map (replaceFirstAlt [['-']] [])

/-- Lines 268-270: the template literal that joins the existing text of a category
and the aggregated entries, joined with the empty separator. -/
def mergedText (existing : Option Str) (aggregated : List Str) : Str :=
  toStr existing ++ aggregated.flatten

/-- Lines 264-272 of `main`: the new content of `CHANGELOG.md` for the content read
and the three aggregated sequences. -/
def mergeStep (content : Str) (added changed fixed : List Str) : Option Str :=
  match latestSection content with
  | none => none
  | some sec =>
    let r := extractChangeLog sec "###".toList
    let a := r[0]?
    let c := r[1]?
    let f := r[2]?
    let newAdded := mergedText a added
    let newChanged := mergedText c changed
    let newFixed := mergedText f fixed
    some (replaceStr (replaceStr (replaceStr content (toStr a) newAdded)
      (toStr c) newChanged) (toStr f) newFixed)

/-- The constant `content` of `src/change.js`, lines 14-23: the fragment template
that the script writes. -/
def Change.content : Str :=
  "---\nauthor: <Your name>\n---\n\n# Added\n\n# Changed\n\n# Fixed\n".toList


/-! ## Notions used to state the properties -/

/-- The text of a category that the merge step searches for in the document: slot
`i` of the latest section `sec`, the text `undefined` when the slot is missing. -/
def existingText (sec : Str) (i : Nat) : Str :=
  toStr (extractChangeLog sec "###".toList)[i]?

/-- The first occurrence of `pat` in `doc`, if there is one, lies between the first
`pre.length` and the last `suf.length` characters of `doc`. -/
def within (pre suf doc pat : Str) : Bool :=
  match breakOn pat doc with
  | none => true
  | some (b, t) => decide (pre.length ≤ b.length) && decide (suf.length ≤ t.length)

/-- The document after the first replacement of the merge step (Added). -/
def afterAdded (content sec : Str) (added : List Str) : Str :=
  replaceStr content (existingText sec 0) (existingText sec 0 ++ added.flatten)

/-- The document after the second replacement of the merge step (Changed). -/
def afterChanged (content sec : Str) (added changed : List Str) : Str :=
  replaceStr (afterAdded content sec added) (existingText sec 1)
    (existingText sec 1 ++ changed.flatten)

/-! ## Facts about the first occurrence of a text -/

theorem breakOn_some {pat s b a : Str} (h : breakOn pat s = some (b, a)) :
    s = b ++ pat ++ a := by
  induction s generalizing b with
  | nil =>
    unfold breakOn at h
    split at h
    · rename_i hp
      simp only [Option.some.injEq, Prod.mk.injEq] at h
      obtain ⟨rfl, rfl⟩ := h
      simpa using hp
    · simp at h
  | cons c s ih =>
    unfold breakOn at h
    split at h
    · rename_i hp
      simp only [Option.some.injEq, Prod.mk.injEq] at h
      obtain ⟨rfl, rfl⟩ := h
      rw [List.isPrefixOf_iff_prefix, List.prefix_iff_eq_append] at hp
      simpa using hp.symm
    · cases hb : breakOn pat s with
      | none => simp [hb] at h
      | some p =>
        obtain ⟨b1, a1⟩ := p
        simp only [hb, Option.map_some', Option.some.injEq, Prod.mk.injEq] at h
        obtain ⟨rfl, rfl⟩ := h
        simp [ih hb]

theorem breakOn_eq_none {pat s : Str} : breakOn pat s = none ↔ ¬ pat <:+: s := by
  induction s with
  | nil =>
    unfold breakOn
    cases pat <;> simp
  | cons c s ih =>
    unfold breakOn
    by_cases hp : pat.isPrefixOf (c :: s) = true
    · simp only [hp, if_true]
      have := (List.isPrefixOf_iff_prefix.mp hp).isInfix
      simp [this]
    · have hp2 : ¬ pat <+: c :: s := fun hpre => hp (List.isPrefixOf_iff_prefix.mpr hpre)
      simp only [hp, Bool.false_eq_true, if_false, Option.map_eq_none', ih,
        List.infix_cons_iff, hp2, false_or]

theorem breakOn_append {pat b : Str} (a : Str) (hp : pat ≠ [])
    (h : ¬ pat <:+: b ++ pat.dropLast) : breakOn pat (b ++ pat ++ a) = some (b, a) := by
  induction b with
  | nil =>
    obtain ⟨c, t, rfl⟩ := List.exists_cons_of_ne_nil hp
    have hpre : (c :: t).isPrefixOf (c :: t ++ a) = true :=
      List.isPrefixOf_iff_prefix.mpr (List.prefix_append _ _)
    simp only [List.nil_append]
    show breakOn (c :: t) (c :: (t ++ a)) = _
    unfold breakOn
    simp only [List.cons_append] at hpre
    simp [hpre]
  | cons c b ih =>
    have hnot : ¬ pat <+: c :: (b ++ pat ++ a) := by
      intro hpre
      apply h
      have h2 : (c :: b) ++ pat.dropLast <+: c :: (b ++ pat ++ a) := by
        have : c :: (b ++ pat ++ a) = ((c :: b) ++ pat.dropLast) ++ ([pat.getLast hp] ++ a) := by
          conv_lhs => rw [← List.dropLast_append_getLast hp]
          simp
        rw [this]
        exact List.prefix_append _ _
      have hlen : pat.length ≤ ((c :: b) ++ pat.dropLast).length := by
        simp; omega
      exact (List.prefix_of_prefix_length_le hpre h2 hlen).isInfix
    have htail : ¬ pat <:+: b ++ pat.dropLast := by
      intro hi
      apply h
      simpa using List.infix_cons hi
    show breakOn pat (c :: (b ++ pat ++ a)) = _
    unfold breakOn
    rw [← List.isPrefixOf_iff_prefix] at hnot
    have ih2 := ih htail
    simp only [List.append_assoc] at ih2 hnot
    simp only [List.append_assoc, hnot, if_false, ih2, Option.map_some']
    simp

/-! ## Facts about split -/

theorem breakOn_length {pat s b a : Str} (hp : pat ≠ []) (h : breakOn pat s = some (b, a)) :
    a.length < s.length := by
  have hlen := congrArg List.length (breakOn_some h)
  have hpos : 0 < pat.length := List.length_pos.mpr hp
  simp only [List.length_append] at hlen
  omega

theorem breakOn_nil_of_ne {pat : Str} (hp : pat ≠ []) : breakOn pat [] = none := by
  cases pat with
  | nil => exact absurd rfl hp
  | cons c t => rfl

theorem splitFuel_extra (sep : Str) (hp : sep ≠ []) (n k : Nat) (s : Str)
    (hn : s.length ≤ n) (hk : s.length ≤ k) : splitFuel sep n s = splitFuel sep k s := by
  induction n generalizing k s with
  | zero =>
    have hs : s = [] := List.length_eq_zero.mp (by omega)
    subst hs
    cases k <;> simp [splitFuel, breakOn_nil_of_ne hp]
  | succ n ih =>
    cases k with
    | zero =>
      have hs : s = [] := List.length_eq_zero.mp (by omega)
      subst hs
      simp [splitFuel, breakOn_nil_of_ne hp]
    | succ k =>
      unfold splitFuel
      cases hb : breakOn sep s with
      | none => rfl
      | some p =>
        obtain ⟨b, a⟩ := p
        have hlen := breakOn_length hp hb
        simp only
        rw [ih k a (by omega) (by omega)]

theorem split_of_some {sep s b a : Str} (hp : sep ≠ []) (h : breakOn sep s = some (b, a)) :
    split s sep = b :: split a sep := by
  have hlen := breakOn_length hp h
  have hE : sep.isEmpty = false := by cases sep <;> simp_all
  obtain ⟨n, hn⟩ : ∃ n, s.length = n + 1 := ⟨s.length - 1, by omega⟩
  unfold split
  simp only [hE, Bool.false_eq_true, if_false]
  rw [hn]
  show (match breakOn sep s with
    | none => [s]
    | some (b, a) => b :: splitFuel sep n a) = _
  rw [h]
  show b :: splitFuel sep n a = _
  rw [splitFuel_extra sep hp n a.length a (by omega) (Nat.le_refl _)]

theorem split_of_none {sep s : Str} (hp : sep ≠ []) (h : breakOn sep s = none) :
    split s sep = [s] := by
  have hE : sep.isEmpty = false := by cases sep <;> simp_all
  unfold split
  simp only [hE, Bool.false_eq_true, if_false]
  cases hn : s.length with
  | zero => rfl
  | succ n =>
    unfold splitFuel
    rw [h]

/-- The four replacements and the filter of `extractChangeLog` on a list of chunks. -/
theorem extractChangeLog_eq (content delimiter : Str) :
    extractChangeLog content delimiter
      = ((split content delimiter).map (fun s =>
          collapseTrailingNewlines (stripLeadingNonWord (joinBullet (stripLabel s))))).filter
            (fun line => !isNewlines line) := by
  unfold extractChangeLog
  simp [List.map_map, Function.comp_def]

/-! ## Facts about the header block -/

theorem marker_dropLast : marker.dropLast = ['-', '-'] := rfl

theorem matchHeaderAt_marker (r : Str) : matchHeaderAt (marker ++ r) = breakOn marker r := by
  have hpre : marker.isPrefixOf (marker ++ r) = true :=
    List.isPrefixOf_iff_prefix.mpr (List.prefix_append _ _)
  unfold matchHeaderAt
  rw [if_pos hpre, List.drop_left]

theorem matchHeaderAt_some {t m r : Str} (h : matchHeaderAt t = some (m, r)) :
    t = marker ++ m ++ marker ++ r := by
  unfold matchHeaderAt at h
  split at h
  · rename_i hp
    rw [List.isPrefixOf_iff_prefix, List.prefix_iff_eq_append] at hp
    rw [← hp, breakOn_some h]
    simp
  · simp at h

theorem execHeader_some {s b m r : Str} (h : execHeader s = some (b, m, r)) :
    s = b ++ marker ++ m ++ marker ++ r := by
  induction s generalizing b with
  | nil => simp [execHeader] at h
  | cons c s ih =>
    unfold execHeader at h
    split at h
    · rename_i m1 r1 hm
      simp only [Option.some.injEq, Prod.mk.injEq] at h
      obtain ⟨rfl, rfl, rfl⟩ := h
      simpa using matchHeaderAt_some hm
    · cases he : execHeader s with
      | none => simp [he] at h
      | some p =>
        obtain ⟨b1, m1, r1⟩ := p
        simp only [he, Option.map_some', Option.some.injEq, Prod.mk.injEq] at h
        obtain ⟨rfl, rfl, rfl⟩ := h
        simp [ih he]

theorem execHeader_eq_none {s : Str} :
    execHeader s = none ↔ ¬ ∃ a m b, s = a ++ marker ++ m ++ marker ++ b := by
  induction s with
  | nil =>
    simp [execHeader, marker]
  | cons c s ih =>
    unfold execHeader
    cases hm : matchHeaderAt (c :: s) with
    | some p =>
      obtain ⟨m, r⟩ := p
      simp only [reduceCtorEq, false_iff, not_not]
      exact ⟨[], m, r, by simpa using matchHeaderAt_some hm⟩
    | none =>
      simp only [Option.map_eq_none', ih]
      constructor
      · rintro hno ⟨a, m, b, hab⟩
        cases a with
        | nil =>
          have hb : breakOn marker (m ++ marker ++ b) ≠ none := by
            rw [Ne, breakOn_eq_none, not_not]
            exact ⟨m, b, rfl⟩
          have : matchHeaderAt (c :: s) = breakOn marker (m ++ marker ++ b) := by
            rw [hab, ← matchHeaderAt_marker]
            simp
          exact hb (this ▸ hm)
        | cons x a =>
          apply hno
          refine ⟨a, m, b, ?_⟩
          simp only [List.cons_append, List.cons.injEq] at hab
          exact hab.2
      · rintro hno ⟨a, m, b, hab⟩
        exact hno ⟨c :: a, m, b, by simp [hab]⟩

theorem execHeader_first (pre m post : Str)
    (h1 : ¬ marker <:+: pre ++ ['-', '-']) (h2 : ¬ marker <:+: m ++ ['-', '-']) :
    execHeader (pre ++ marker ++ m ++ marker ++ post) = some (pre, m, post) := by
  have hm : marker ≠ [] := by decide
  induction pre with
  | nil =>
    have hb : breakOn marker (m ++ marker ++ post) = some (m, post) :=
      breakOn_append post hm (by rw [marker_dropLast]; exact h2)
    have hh : matchHeaderAt (marker ++ (m ++ marker ++ post)) = some (m, post) := by
      rw [matchHeaderAt_marker, hb]
    have e : [] ++ marker ++ m ++ marker ++ post = '-' :: ('-' :: '-' :: (m ++ marker ++ post)) := by
      simp [marker]
    rw [e]
    have e2 : marker ++ (m ++ marker ++ post) = '-' :: ('-' :: '-' :: (m ++ marker ++ post)) := by
      simp [marker]
    rw [e2] at hh
    unfold execHeader
    rw [hh]
  | cons c p ih =>
    have hb : breakOn marker ((c :: p) ++ marker ++ (m ++ marker ++ post))
        = some (c :: p, m ++ marker ++ post) :=
      breakOn_append _ hm (by rw [marker_dropLast]; exact h1)
    have hnone : matchHeaderAt (c :: (p ++ marker ++ m ++ marker ++ post)) = none := by
      unfold matchHeaderAt
      split
      · rename_i hp
        exfalso
        have e : (c :: p) ++ marker ++ (m ++ marker ++ post)
            = c :: (p ++ marker ++ m ++ marker ++ post) := by simp
        rw [e] at hb
        unfold breakOn at hb
        rw [if_pos hp] at hb
        simp at hb
      · rfl
    have htail : ¬ marker <:+: p ++ ['-', '-'] := by
      intro hi
      apply h1
      simpa using List.infix_cons hi
    show execHeader (c :: (p ++ marker ++ m ++ marker ++ post)) = _
    unfold execHeader
    rw [hnone, ih htail]
    rfl

theorem removeHeadersFuel_extra (n k : Nat) (s : Str) (hn : s.length ≤ n) (hk : s.length ≤ k) :
    removeHeadersFuel n s = removeHeadersFuel k s := by
  induction n generalizing k s with
  | zero =>
    have hs : s = [] := List.length_eq_zero.mp (by omega)
    subst hs
    cases k <;> simp [removeHeadersFuel, execHeader]
  | succ n ih =>
    cases k with
    | zero =>
      have hs : s = [] := List.length_eq_zero.mp (by omega)
      subst hs
      simp [removeHeadersFuel, execHeader]
    | succ k =>
      unfold removeHeadersFuel
      cases he : execHeader s with
      | none => rfl
      | some p =>
        obtain ⟨b, m, r⟩ := p
        have hlen := congrArg List.length (execHeader_some he)
        simp only [List.length_append] at hlen
        have h3 : marker.length = 3 := rfl
        simp only
        rw [ih k r (by omega) (by omega)]

theorem removeHeaders_of_some {s b m r : Str} (h : execHeader s = some (b, m, r)) :
    removeHeaders s = b ++ removeHeaders r := by
  have hlen := congrArg List.length (execHeader_some h)
  simp only [List.length_append] at hlen
  have h3 : marker.length = 3 := rfl
  obtain ⟨n, hn⟩ : ∃ n, s.length = n + 1 := ⟨s.length - 1, by omega⟩
  unfold removeHeaders
  rw [hn]
  show (match execHeader s with
    | none => s
    | some (b, _, r) => b ++ removeHeadersFuel n r) = _
  rw [h]
  show b ++ removeHeadersFuel n r = _
  rw [removeHeadersFuel_extra n r.length r (by omega) (Nat.le_refl _)]

theorem removeHeaders_of_none {s : Str} (h : execHeader s = none) : removeHeaders s = s := by
  unfold removeHeaders
  cases hn : s.length with
  | zero => rfl
  | succ n =>
    unfold removeHeadersFuel
    rw [h]

theorem removeAll_region (m : Str) (h2 : ¬ marker <:+: m ++ ['-', '-']) :
    removeAll marker (marker ++ m ++ marker) = m := by
  have hm : marker ≠ [] := by decide
  have hb1 : breakOn marker ([] ++ marker ++ (m ++ marker)) = some ([], m ++ marker) :=
    breakOn_append _ hm (by decide)
  have hb2 : breakOn marker (m ++ marker ++ []) = some (m, []) :=
    breakOn_append _ hm (by rw [marker_dropLast]; exact h2)
  have hlen : (marker ++ m ++ marker).length = (m.length + 4) + 1 + 1 := by
    simp [marker]
  unfold removeAll
  rw [hlen]
  unfold removeAllFuel
  simp only [List.nil_append, List.append_assoc] at hb1
  simp only [List.append_assoc, hb1]
  unfold removeAllFuel
  simp only [List.append_nil] at hb2
  simp only [hb2]
  cases (m.length + 4) <;> simp [removeAllFuel, breakOn, marker]

/-! ## extractMetaData: the claims -/

/-- C10: `extractMetaData` fails (the program throws) exactly on the texts that have no
header block, that is no `---` followed later by a second `---`; on every text
that has such a pair it returns a result, and on no text without one does it return
anything, empty metadata included. -/
theorem extractMetaData_fails_iff_no_header (content : Str) :
    (extractMetaData content = none
        ↔ ¬ ∃ a m b, content = a ++ marker ++ m ++ marker ++ b)
      ∧ ((∃ a m b, content = a ++ marker ++ m ++ marker ++ b)
        → ∃ metaData result, extractMetaData content = some (metaData, result)) := by
  have key : extractMetaData content = none
      ↔ ¬ ∃ a m b, content = a ++ marker ++ m ++ marker ++ b := by
    rw [← execHeader_eq_none]
    unfold extractMetaData
    cases execHeader content with
    | none => simp
    | some p => obtain ⟨b, m, r⟩ := p; simp
  refine ⟨key, fun h => ?_⟩
  cases he : extractMetaData content with
  | none => exact absurd h (key.mp he)
  | some p => exact ⟨p.1, p.2, rfl⟩

/-- Witness for C10: the fragment template has a header block, so `extractMetaData`
returns on it; a lone `---` line has none, so it fails. -/
theorem extractMetaData_fails_iff_no_header_witness :
    (∃ metaData result, extractMetaData Change.content = some (metaData, result))
      ∧ ¬ ∃ a m b, "---\nauthor: me\n".toList = a ++ marker ++ m ++ marker ++ b :=
  ⟨(extractMetaData_fails_iff_no_header Change.content).2
      ⟨[], "\nauthor: <Your name>\n".toList, "\n\n# Added\n\n# Changed\n\n# Fixed\n".toList,
        by decide⟩,
    (extractMetaData_fails_iff_no_header "---\nauthor: me\n".toList).1.mp (by decide)⟩

/-- C9 (as stated, refuted): in `"---\na: b\n---\nx---y---z"` the first pair of markers
encloses `"\na: b\n"`; the body returned is `"\nxz"`, not the input with only that
first region removed (`"\nx---y---z"`): the later pair of markers and the text
between them are removed too. -/
theorem extractMetaData_removes_later_regions :
    extractMetaData "---\na: b\n---\nx---y---z".toList
        = some ("\na: b\n".toList, "\nxz".toList)
      ∧ extractMetaData ([] ++ marker ++ "\na: b\n".toList ++ marker ++ "\nx---y---z".toList)
        ≠ some ("\na: b\n".toList, [] ++ "\nx---y---z".toList) := by
  decide

/-- C9 (amended): when the first `---` of the text is at the end of `pre` and the
next `---` after it is at the end of `m`, `extractMetaData` returns `m` as metadata
and, as body, `pre` followed by the rest `post` with every further marker-delimited
region removed: the removal of regions goes on through the rest, left to right, and
a rest without a pair of markers is left as it is. -/
theorem extractMetaData_first_region (pre m post : Str)
    (h1 : ¬ marker <:+: pre ++ ['-', '-']) (h2 : ¬ marker <:+: m ++ ['-', '-']) :
    extractMetaData (pre ++ marker ++ m ++ marker ++ post)
        = some (m, pre ++ removeHeaders post)
      ∧ (∀ a x b : Str, ¬ marker <:+: a ++ ['-', '-'] → ¬ marker <:+: x ++ ['-', '-'] →
          removeHeaders (a ++ marker ++ x ++ marker ++ b) = a ++ removeHeaders b)
      ∧ ((¬ ∃ a x b, post = a ++ marker ++ x ++ marker ++ b) → removeHeaders post = post) := by
  refine ⟨?_, ?_, ?_⟩
  · have he := execHeader_first pre m post h1 h2
    unfold extractMetaData
    rw [he]
    simp only [removeAll_region m h2, removeHeaders_of_some he]
  · intro a x b ha hx
    exact removeHeaders_of_some (execHeader_first a x b ha hx)
  · intro hno
    exact removeHeaders_of_none (execHeader_eq_none.mpr hno)

/-- Witness for C9 (amended): a fragment with a header and a lone later `---`, which
stays in the body. -/
theorem extractMetaData_first_region_witness :
    (¬ marker <:+: ([] : Str) ++ ['-', '-']) ∧ (¬ marker <:+: "\na: b\n".toList ++ ['-', '-'])
      ∧ extractMetaData ([] ++ marker ++ "\na: b\n".toList ++ marker ++ "\nx---y".toList)
        = some ("\na: b\n".toList, [] ++ removeHeaders "\nx---y".toList) :=
  ⟨by decide, by decide,
    (extractMetaData_first_region [] "\na: b\n".toList "\nx---y".toList
      (by decide) (by decide)).1⟩

/-! ## extractChangeLog: where the text is split -/

/-- C8 (the code at the failing input): for the template with the entry `- fix #12`
under `# Added`, the `#` of the issue reference starts a new chunk; the entry is cut
in two, `"- fix "` is the first slot and `"12\n"` the second, so `getChangeLog` puts
the second half of the Added entry in the changed sequence. -/
theorem getChangeLog_issue_reference :
    extractChangeLog "\n\n# Added\n- fix #12\n\n# Changed\n\n# Fixed\n".toList ['#']
        = ["- fix ".toList, "12\n".toList, []]
      ∧ getChangeLog
          ["---\nauthor: <Your name>\n---\n\n# Added\n- fix #12\n\n# Changed\n\n# Fixed\n".toList]
        = some (["- fix ".toList], ["12\n".toList], []) := by
  decide

/-! ## The slots of extractChangeLog on concrete fragments -/

/-- C2 (the code at the failing input): on the body of the concrete scenario the
chunk before the first heading is the empty text, which the filter keeps; it takes
the first slot, the Added entry comes second and the empty Changed chunk is dropped. -/
theorem extractChangeLog_concrete_scenario :
    extractChangeLog "# Added\n- new feature\n\n# Changed\n\n# Fixed\n".toList ['#']
      = [[], "- new feature\n".toList, []] := by
  decide

/-- C7 (the code at the failing input): on the fragment template `extractMetaData`
succeeds and `extractChangeLog` returns one slot, not three: the chunk before the
first heading and the empty Added and Changed chunks are filtered out. -/
theorem extractChangeLog_template :
    (extractMetaData Change.content).map (fun p => extractChangeLog p.2 ['#']) = some [[]] := by
  decide

/-- C3 (the code at the failing input): for the template with the line `- bug` under
`# Fixed`, `getChangeLog` puts the entry in the added sequence and leaves the fixed
sequence empty. -/
theorem getChangeLog_fixed_only :
    getChangeLog
        ["---\nauthor: <Your name>\n---\n\n# Added\n\n# Changed\n\n# Fixed\n- bug\n".toList]
      = some (["- bug\n".toList], [], []) := by
  decide

/-- C1 (the code at the failing input): the first `-` of the latest section is removed
before the split, so the existing Added text extracted is `"\n old feature\n"`, which
does not occur in the document; the first replacement finds nothing and the new
entry is not merged: the document comes back unchanged. -/
theorem mergeStep_concrete_scenario :
    (latestSection
        "# Changelog\n\n## [1.0.0]\n\n### Added\n- old feature\n\n### Changed\n- c\n\n### Fixed\n- f\n".toList).map
          (fun sec => extractChangeLog sec "###".toList)
        = some ["\n old feature\n".toList, "- c\n".toList, "- f\n".toList]
      ∧ mergeStep
          "# Changelog\n\n## [1.0.0]\n\n### Added\n- old feature\n\n### Changed\n- c\n\n### Fixed\n- f\n".toList
          ["- new feature\n".toList] [] []
        = some
          "# Changelog\n\n## [1.0.0]\n\n### Added\n- old feature\n\n### Changed\n- c\n\n### Fixed\n- f\n".toList := by
  decide

/-! ## Facts about the merge step -/

theorem replaceStr_frame (pre mid suf pat rep : Str)
    (h : within pre suf (pre ++ mid ++ suf) pat = true) :
    ∃ mid2, replaceStr (pre ++ mid ++ suf) pat rep = pre ++ mid2 ++ suf := by
  unfold within at h
  unfold replaceStr
  cases hb : breakOn pat (pre ++ mid ++ suf) with
  | none => exact ⟨mid, rfl⟩
  | some p =>
    obtain ⟨b, t⟩ := p
    rw [hb] at h
    simp only [Bool.and_eq_true, decide_eq_true_eq] at h
    have hdoc := breakOn_some hb
    have p1 : pre <+: pre ++ mid ++ suf := ⟨mid ++ suf, by simp⟩
    have p2 : b <+: pre ++ mid ++ suf := ⟨pat ++ t, by rw [hdoc]; simp⟩
    have hpre : pre <+: b := List.prefix_of_prefix_length_le p1 p2 h.1
    have s1 : suf <:+ pre ++ mid ++ suf := ⟨pre ++ mid, rfl⟩
    have s2 : t <:+ pre ++ mid ++ suf := ⟨b ++ pat, by rw [hdoc]⟩
    have hsuf : suf <:+ t := List.suffix_of_suffix_length_le s1 s2 h.2
    obtain ⟨b2, rfl⟩ := hpre
    obtain ⟨t2, rfl⟩ := hsuf
    exact ⟨b2 ++ getSubstitution pat (pre ++ b2) (t2 ++ suf) rep ++ t2, by simp⟩

/-! ## The merge step and a category whose aggregated sequence is empty -/

/-- C5 (the code at the failing input): the Changed block of this document holds `$$`.
With `fixed = ["- g\n"]` and nothing aggregated for Changed, the replacement for
Changed puts back the expansion of the existing text, in which `$$` stands for `$`:
the Changed block comes back as `- costs $5`, although nothing was merged into it.
Lines 264-272 do the same when all three sequences are empty, the case in which
`main` returns at lines 258-261 before it reaches them. -/
theorem mergeStep_rewrites_untouched_category :
    mergeStep
        "## [1.0.0]\n\n### Added\n- a\n\n### Changed\n- costs $$5\n\n### Fixed\n- f\n".toList
        [] [] ["- g\n".toList]
      = some
        "## [1.0.0]\n\n### Added\n- a\n\n### Changed\n- costs $5\n\n### Fixed\n- f\n- g\n".toList
    ∧ mergeStep
        "## [1.0.0]\n\n### Added\n- a\n\n### Changed\n- costs $$5\n\n### Fixed\n- f\n".toList
        [] [] []
      = some
        "## [1.0.0]\n\n### Added\n- a\n\n### Changed\n- costs $5\n\n### Fixed\n- f\n".toList := by
  decide

/-! ## The merge step and the text outside the latest section -/

/-- C4 (as stated, refuted): the text before the first version heading holds the
line `- c`, which is also the Changed block of the latest section; the replacement
for Changed goes to the first occurrence, so the new entry lands before the version
heading and the text before the heading is not the same after the merge. -/
theorem mergeStep_changes_text_before_heading :
    mergeStep
        "# Changelog\n- c\n\n## [1.0.0]\n\n### Added\n- a\n\n### Changed\n- c\n\n### Fixed\n- f\n".toList
        [] ["- new\n".toList] []
      = some
        "# Changelog\n- c\n- new\n\n## [1.0.0]\n\n### Added\n- a\n\n### Changed\n- c\n\n### Fixed\n- f\n".toList
    ∧ (breakVersion
        "# Changelog\n- c\n\n## [1.0.0]\n\n### Added\n- a\n\n### Changed\n- c\n\n### Fixed\n- f\n".toList).map
          Prod.fst = some "# Changelog\n- c\n\n".toList
    ∧ (breakVersion
        "# Changelog\n- c\n- new\n\n## [1.0.0]\n\n### Added\n- a\n\n### Changed\n- c\n\n### Fixed\n- f\n".toList).map
          Prod.fst = some "# Changelog\n- c\n- new\n\n".toList := by
  decide

/-- C4 (amended): each of the three replacements of the merge step replaces the first
occurrence of the existing text in the whole document as it stands at that moment.
For a document `pre ++ mid ++ suf` with latest section `sec` (so `pre` may be the
text before the first version heading, and `suf` the text from the second version
heading on), whenever each of the three first occurrences, if there is one, lies
inside `mid`, the merge step returns `pre ++ mid2 ++ suf` for some `mid2`: `pre` and
`suf` are kept as they are. -/
theorem mergeStep_frame (pre mid suf sec : Str) (added changed fixed : List Str)
    (hsec : latestSection (pre ++ mid ++ suf) = some sec)
    (ha : within pre suf (pre ++ mid ++ suf) (existingText sec 0) = true)
    (hc : within pre suf (afterAdded (pre ++ mid ++ suf) sec added) (existingText sec 1) = true)
    (hf : within pre suf (afterChanged (pre ++ mid ++ suf) sec added changed)
      (existingText sec 2) = true) :
    ∃ mid2, mergeStep (pre ++ mid ++ suf) added changed fixed = some (pre ++ mid2 ++ suf) := by
  obtain ⟨m1, h1⟩ := replaceStr_frame pre mid suf (existingText sec 0)
    (existingText sec 0 ++ added.flatten) ha
  have e1 : afterAdded (pre ++ mid ++ suf) sec added = pre ++ m1 ++ suf := h1
  rw [e1] at hc
  obtain ⟨m2, h2⟩ := replaceStr_frame pre m1 suf (existingText sec 1)
    (existingText sec 1 ++ changed.flatten) hc
  have e2 : afterChanged (pre ++ mid ++ suf) sec added changed = pre ++ m2 ++ suf := by
    unfold afterChanged
    rw [e1]
    exact h2
  rw [e2] at hf
  obtain ⟨m3, h3⟩ := replaceStr_frame pre m2 suf (existingText sec 2)
    (existingText sec 2 ++ fixed.flatten) hf
  refine ⟨m3, ?_⟩
  unfold mergeStep
  rw [hsec]
  simp only [mergedText]
  unfold existingText at h1 h2 h3
  rw [h1, h2, h3]

/-- Witness for C4 (amended): a document with two version sections; the text before
the first heading and the second section are kept. -/
theorem mergeStep_frame_witness :
    latestSection ("# Changelog\n\n".toList
        ++ "## [1.0.0]\n\n### Added\n- a\n\n### Changed\n- c\n\n### Fixed\n- f\n\n".toList
        ++ "## [0.9.0]\n\n### Added\n- z\n".toList)
      = some "\n\n### Added\n a\n\n### Changed\n- c\n\n### Fixed\n- f\n\n".toList
    ∧ ∃ mid2, mergeStep ("# Changelog\n\n".toList
        ++ "## [1.0.0]\n\n### Added\n- a\n\n### Changed\n- c\n\n### Fixed\n- f\n\n".toList
        ++ "## [0.9.0]\n\n### Added\n- z\n".toList)
        ["- n\n".toList] ["- m\n".toList] ["- g\n".toList]
      = some ("# Changelog\n\n".toList ++ mid2 ++ "## [0.9.0]\n\n### Added\n- z\n".toList) :=
  ⟨by decide,
    mergeStep_frame "# Changelog\n\n".toList
      "## [1.0.0]\n\n### Added\n- a\n\n### Changed\n- c\n\n### Fixed\n- f\n\n".toList
      "## [0.9.0]\n\n### Added\n- z\n".toList
      "\n\n### Added\n a\n\n### Changed\n- c\n\n### Fixed\n- f\n\n".toList
      ["- n\n".toList] ["- m\n".toList] ["- g\n".toList]
      (by decide) (by decide) (by decide) (by decide)⟩

/-! ## getChangeLog: fragments with Added entries only -/

/-- C6 (the code at the failing input): three fragments with one line feed after the
header and the Added entries `- X`, `- Y`, `- Z` as their only entries.  For each
the chunk before the first heading reduces to the empty text, which the filter
keeps, so the Added entry is the second slot: `getChangeLog` returns an empty added
sequence and `- X`, `- Y`, `- Z` in the changed sequence, and the merged Added text
is the existing text alone, with none of the three entries in it. -/
theorem getChangeLog_added_only_fragments :
    (extractMetaData
        "---\nauthor: me\n---\n# Added\n- X\n\n# Changed\n\n# Fixed\n".toList).map
          (fun p => extractChangeLog p.2 ['#'])
        = some [[], "- X\n".toList, []]
      ∧ getChangeLog
          ["---\nauthor: me\n---\n# Added\n- X\n\n# Changed\n\n# Fixed\n".toList,
            "---\nauthor: me\n---\n# Added\n- Y\n\n# Changed\n\n# Fixed\n".toList,
            "---\nauthor: me\n---\n# Added\n- Z\n\n# Changed\n\n# Fixed\n".toList]
        = some ([], ["- X\n".toList, "- Y\n".toList, "- Z\n".toList], [])
      ∧ mergedText (some "- old\n".toList) [] = "- old\n".toList := by
  decide

end Hist0
